import Mathlib

/-!
Verification of the ArtisanAi request rate limiter.

The definitions below are a shallow embedding of the rate-limiting logic of
the repository:

* `RateLimiter` embeds `app/utils/rate_limiter.py`: the module-level map
  `_rate_limits`, the sweep `clear_expired_limits`, the core of the
  decorated route handler produced by `rate_limited` (modelled as
  `check_core` / `check_and_consume` / `decorated_function`), and the
  module-level `RATE_LIMITS` table with its one-argument `get_rate_limit`.
* `RateLimitsConfig` embeds `config/rate_limits.py`: the nested
  `RATE_LIMITS` table, the two-argument `get_rate_limit`, and
  `get_rate_limit_for_endpoint`.

Timestamps (`time.time()` values) are modelled as rationals, Python ints as
`ℤ`, and the admitted-request counter as `ℕ`.  A single clock value `now`
is supplied per check (the source reads the wall clock; the sweep and the
check observe the same instant in this sequential model).  Python `int()`
applied to a float truncates toward zero, which `truncInt` mirrors.
-/

attribute [local semireducible] Rat.add Rat.sub

namespace RateLimiter

/-- Python `int()` on a real number: truncation toward zero. -/
def truncInt (q : ℚ) : ℤ := if 0 ≤ q then ⌊q⌋ else ⌈q⌉

/-- One value of the `_rate_limits` dict: the pair `(expiry, count)`. -/
abbrev Entry := ℚ × ℕ

/-- The module-level `_rate_limits` mapping from keys to entries. -/
def RateLimits : Type := String → Option Entry

/-- The empty `_rate_limits` map (process start). -/
def emptyLimits : RateLimits := fun _ => none

/-- Embeds `clear_expired_limits`: drop every entry whose `expiry <= now`. -/
def clear_expired_limits (now : ℚ) (st : RateLimits) : RateLimits :=
  fun k =>
    match st k with
    | none => none
    | some (expiry, c) => if expiry ≤ now then none else some (expiry, c)

/-- Outcome of one rate-limit check: either the handler runs and the
response carries `X-RateLimit-Remaining` / `X-RateLimit-Reset` header
values, or `RateLimitExceeded(retry_after)` is raised. -/
inductive CheckResult where
  | admitted (remaining : ℤ) (reset : ℤ)
  | rejected (retry_after : ℤ)
deriving DecidableEq

/-- Whether a check outcome lets the handler run. -/
def isAdmitted : CheckResult → Bool
  | .admitted _ _ => true
  | .rejected _ => false

/-- The per-key core of `decorated_function` (lines 97-117 of
`rate_limiter.py`), acting on the post-sweep entry of the checked key.
Returns the outcome together with the value written back for the key
(`none` means the rejected branch, which writes nothing). -/
def check_core (limit per : ℤ) (now : ℚ) (entry : Option Entry) :
    CheckResult × Option Entry :=
  let p := entry.getD (now + (per : ℚ), 0)
  let q := if p.1 < now then (now + (per : ℚ), (0 : ℕ)) else p
  if limit ≤ (q.2 : ℤ) then
    (.rejected (truncInt (q.1 - now) + 1), none)
  else
    (.admitted (max 0 (limit - ((q.2 : ℤ) + 1))) (truncInt q.1),
      some (q.1, q.2 + 1))

/-- One full rate-limit check of `decorated_function` (testing mode off):
sweep expired entries, then check-and-increment the given key. -/
def check_and_consume (limit per : ℤ) (key : String) (now : ℚ)
    (st : RateLimits) : CheckResult × RateLimits :=
  let st1 := clear_expired_limits now st
  match check_core limit per now (st1 key) with
  | (r, none) => (r, st1)
  | (r, some v) => (r, fun k => if k = key then some v else st1 k)

/-- A sequence of checks for one key at the given times, threading the
shared map through. -/
def runChecks (limit per : ℤ) (key : String) (ts : List ℚ) (st : RateLimits) :
    List CheckResult × RateLimits :=
  match ts with
  | [] => ([], st)
  | t :: ts' =>
    let rs := check_and_consume limit per key t st
    let rest := runChecks limit per key ts' rs.2
    (rs.1 :: rest.1, rest.2)

/-- Result of a call to the decorated route handler, with the handler
response abstracted as a value of type `ρ`. -/
inductive DecoratedResult (ρ : Type) where
  | plain (r : ρ)
  | withHeaders (r : ρ) (limit remaining reset : ℤ)
  | rateLimitError (retry_after : ℤ)

/-- Embeds the whole `decorated_function` body: the `TESTING` bypass,
the rate-limit check, and the attachment of rate-limit headers to the
handler response on admission. -/
def decorated_function {ρ : Type} (testing : Bool) (limit per : ℤ)
    (key : String) (now : ℚ) (handler : ρ) (st : RateLimits) :
    DecoratedResult ρ × RateLimits :=
  if testing then (.plain handler, st)
  else
    match check_and_consume limit per key now st with
    | (.admitted remaining reset, st') =>
      (.withHeaders handler limit remaining reset, st')
    | (.rejected retry, st') => (.rateLimitError retry, st')

/-- The module-level `RATE_LIMITS` table of `app/utils/rate_limiter.py`. -/
def RATE_LIMITS : List (String × (ℤ × ℤ)) :=
  [("public", (100, 60)), ("auth", (10, 60)), ("api", (1000, 3600)),
   ("strict", (5, 60))]

/-- Embeds the one-argument `get_rate_limit` of `app/utils/rate_limiter.py`:
`RATE_LIMITS.get(category, (100, 60))`. -/
def get_rate_limit (category : String) : ℤ × ℤ :=
  (RATE_LIMITS.lookup category).getD (100, 60)

end RateLimiter

namespace RateLimiter

theorem clear_at (now : ℚ) (st : RateLimits) (k : String) :
    clear_expired_limits now st k =
      match st k with
      | none => none
      | some (e, c) => if e ≤ now then none else some (e, c) := rfl

theorem clear_of_none {now : ℚ} {st : RateLimits} {k : String}
    (h : st k = none) : clear_expired_limits now st k = none := by
  rw [clear_at, h]

theorem clear_of_expired {now e : ℚ} {st : RateLimits} {k : String} {c : ℕ}
    (h : st k = some (e, c)) (he : e ≤ now) :
    clear_expired_limits now st k = none := by
  rw [clear_at, h]
  exact if_pos he

theorem clear_of_live {now e : ℚ} {st : RateLimits} {k : String} {c : ℕ}
    (h : st k = some (e, c)) (he : now < e) :
    clear_expired_limits now st k = some (e, c) := by
  rw [clear_at, h]
  exact if_neg (not_le.mpr he)

theorem check_core_none (L per : ℤ) (now : ℚ) (hL : 1 ≤ L) :
    check_core L per now none
      = (.admitted (max 0 (L - 1)) (truncInt (now + per)), some (now + per, 1)) := by
  unfold check_core
  simp only [Option.getD, ite_self]
  rw [if_neg (by push_cast; omega)]
  norm_num

theorem check_core_some (L per : ℤ) (now e : ℚ) (c : ℕ) (h : ¬ e < now) :
    check_core L per now (some (e, c))
      = if L ≤ (c : ℤ) then (.rejected (truncInt (e - now) + 1), none)
        else (.admitted (max 0 (L - ((c : ℤ) + 1))) (truncInt e), some (e, c + 1)) := by
  unfold check_core
  simp only [Option.getD]
  rw [if_neg h]

theorem check_fst (L per : ℤ) (key : String) (now : ℚ) (st : RateLimits) :
    (check_and_consume L per key now st).1
      = (check_core L per now (clear_expired_limits now st key)).1 := by
  unfold check_and_consume
  rcases h : check_core L per now (clear_expired_limits now st key) with ⟨r, v⟩
  cases v <;> simp [h]

theorem check_snd_at_key (L per : ℤ) (key : String) (now : ℚ) (st : RateLimits) :
    (check_and_consume L per key now st).2 key
      = (match (check_core L per now (clear_expired_limits now st key)).2 with
         | none => clear_expired_limits now st key
         | some v => some v) := by
  unfold check_and_consume
  rcases h : check_core L per now (clear_expired_limits now st key) with ⟨r, v⟩
  cases v <;> simp [h]

theorem check_snd_off_key (L per : ℤ) (key : String) (now : ℚ) (st : RateLimits)
    (k : String) (hk : k ≠ key) :
    (check_and_consume L per key now st).2 k = clear_expired_limits now st k := by
  unfold check_and_consume
  rcases h : check_core L per now (clear_expired_limits now st key) with ⟨r, v⟩
  cases v <;> simp [h, hk]

theorem step_absent (L per : ℤ) (key : String) (now : ℚ) (st : RateLimits)
    (hst : clear_expired_limits now st key = none) (hL : 1 ≤ L) :
    (check_and_consume L per key now st).1
        = .admitted (max 0 (L - 1)) (truncInt (now + per))
      ∧ (check_and_consume L per key now st).2 key = some (now + per, 1) := by
  rw [check_fst, check_snd_at_key, hst, check_core_none L per now hL]
  exact ⟨rfl, rfl⟩

theorem step_live (L per : ℤ) (key : String) (now : ℚ) (st : RateLimits)
    (e : ℚ) (c : ℕ) (hst : st key = some (e, c)) (hlt : now < e) :
    (check_and_consume L per key now st).1
        = (if L ≤ (c : ℤ) then .rejected (truncInt (e - now) + 1)
           else .admitted (max 0 (L - ((c : ℤ) + 1))) (truncInt e))
      ∧ (check_and_consume L per key now st).2 key
        = (if L ≤ (c : ℤ) then some (e, c) else some (e, c + 1)) := by
  have hle : ¬ e < now := not_lt.mpr hlt.le
  rw [check_fst, check_snd_at_key, clear_of_live hst hlt,
    check_core_some L per now e c hle]
  by_cases hc : L ≤ (c : ℤ)
  · simp only [if_pos hc]
    exact ⟨trivial, trivial⟩
  · simp only [if_neg hc]
    exact ⟨trivial, trivial⟩

theorem run_inside (L : ℕ) (per : ℤ) (key : String) (E : ℚ) (ts : List ℚ)
    (st : RateLimits) (c : ℕ) (hcL : c ≤ L) (hst : st key = some (E, c))
    (hts : ∀ t ∈ ts, t < E) :
    ((runChecks (L : ℤ) per key ts st).1.map isAdmitted
        = (List.range ts.length).map (fun i => decide (c + i < L)))
      ∧ (runChecks (L : ℤ) per key ts st).2 key
        = some (E, min (c + ts.length) L) := by
  induction ts generalizing st c with
  | nil =>
    simp [runChecks, hst, Nat.min_eq_left hcL]
  | cons t ts' ih =>
    have ht : t < E := hts t (List.mem_cons_self t ts')
    have hts' : ∀ t' ∈ ts', t' < E := fun t' ht' => hts t' (List.mem_cons_of_mem _ ht')
    have hstep := step_live (L : ℤ) per key t st E c hst ht
    by_cases hc : c < L
    · have hcond : ¬ ((L : ℤ) ≤ (c : ℤ)) := by exact_mod_cast not_le.mpr hc
      simp only [if_neg hcond] at hstep
      obtain ⟨h1, h2⟩ := hstep
      obtain ⟨ih1, ih2⟩ := ih (check_and_consume (L : ℤ) per key t st).2 (c + 1)
        (by omega) h2 hts'
      constructor
      · show isAdmitted (check_and_consume (L : ℤ) per key t st).1
            :: (runChecks (L : ℤ) per key ts' (check_and_consume (L : ℤ) per key t st).2).1.map isAdmitted
          = _
        rw [h1, ih1, List.length_cons, List.range_succ_eq_map, List.map_cons,
          List.map_map]
        have htail : ((fun i => decide (c + i < L)) ∘ Nat.succ)
            = (fun i => decide (c + 1 + i < L)) := by
          funext i
          simp only [Function.comp_apply]
          rw [decide_eq_decide]
          omega
        have hhead : decide (c + 0 < L) = true := by simp [hc]
        rw [htail, hhead]
        rfl
      · show (runChecks (L : ℤ) per key ts' (check_and_consume (L : ℤ) per key t st).2).2 key = _
        rw [ih2, List.length_cons]
        have : c + 1 + ts'.length = c + (ts'.length + 1) := by omega
        rw [this]
    · have hceq : c = L := by omega
      have hcond : (L : ℤ) ≤ (c : ℤ) := by exact_mod_cast not_lt.mp hc
      simp only [if_pos hcond] at hstep
      obtain ⟨h1, h2⟩ := hstep
      obtain ⟨ih1, ih2⟩ := ih (check_and_consume (L : ℤ) per key t st).2 c hcL h2 hts'
      have hfalse : ∀ n : ℕ, decide (c + n < L) = false :=
        fun n => decide_eq_false (by omega)
      constructor
      · show isAdmitted (check_and_consume (L : ℤ) per key t st).1
            :: (runChecks (L : ℤ) per key ts' (check_and_consume (L : ℤ) per key t st).2).1.map isAdmitted
          = _
        rw [h1, ih1, List.length_cons, List.range_succ_eq_map, List.map_cons,
          List.map_map]
        simp only [isAdmitted, hfalse, List.map_map, Function.comp_def]
      · show (runChecks (L : ℤ) per key ts' (check_and_consume (L : ℤ) per key t st).2).2 key = _
        rw [ih2, List.length_cons]
        have h3 : min (c + ts'.length) L = L := by omega
        have h4 : min (c + (ts'.length + 1)) L = L := by omega
        rw [h3, h4]

theorem runChecks_nil (L per : ℤ) (key : String) (st : RateLimits) :
    runChecks L per key [] st = ([], st) := rfl

theorem runChecks_cons (L per : ℤ) (key : String) (t : ℚ) (ts : List ℚ)
    (st : RateLimits) :
    runChecks L per key (t :: ts) st
      = ((check_and_consume L per key t st).1
            :: (runChecks L per key ts (check_and_consume L per key t st).2).1,
         (runChecks L per key ts (check_and_consume L per key t st).2).2) := rfl

end RateLimiter

namespace RateLimiter

/-- C1: starting with no stored entry for the key, for any sequence of more
than `limit` checks of that key whose times all lie inside the window opened
by the first check, the i-th check is admitted (the handler runs) precisely
when `i < limit` — so exactly the first `limit` checks are admitted and all
later ones are rejected — and after every prefix of the sequence the stored
count for the key never exceeds `limit`. -/
theorem c1_hard_cap (L : ℕ) (per : ℤ) (key : String) (t0 : ℚ)
    (rest : List ℚ) (st : RateLimits) (hL : 1 ≤ L) (_hper : 0 < per)
    (hst : st key = none)
    (hwin : ∀ t ∈ t0 :: rest, t0 ≤ t ∧ t < t0 + (per : ℚ))
    (_hN : L < (t0 :: rest).length) :
    ((runChecks (L : ℤ) per key (t0 :: rest) st).1.map isAdmitted
        = (List.range (t0 :: rest).length).map (fun i => decide (i < L)))
      ∧ ∀ n e c,
          (runChecks (L : ℤ) per key ((t0 :: rest).take n) st).2 key
              = some (e, c) →
            c ≤ L := by
  have hrest : ∀ t ∈ rest, t < t0 + (per : ℚ) :=
    fun t ht => (hwin t (List.mem_cons_of_mem _ ht)).2
  obtain ⟨h1, h2⟩ := step_absent (L : ℤ) per key t0 st (clear_of_none hst)
    (by exact_mod_cast hL)
  constructor
  · rw [runChecks_cons, List.map_cons, h1]
    obtain ⟨ih1, _⟩ := run_inside L per key (t0 + per) rest _ 1 hL h2 hrest
    rw [ih1, List.length_cons, List.range_succ_eq_map, List.map_cons,
      List.map_map]
    have htail : ((fun i => decide (i < L)) ∘ Nat.succ)
        = (fun i => decide (1 + i < L)) := by
      funext i
      simp only [Function.comp_apply]
      rw [decide_eq_decide]
      omega
    have hhead : decide (0 < L) = true := decide_eq_true (by omega)
    rw [htail, hhead]
    rfl
  · intro n e c h
    cases n with
    | zero =>
      rw [List.take_zero, runChecks_nil] at h
      have h' : st key = some (e, c) := h
      rw [hst] at h'
      exact absurd h' (by simp)
    | succ m =>
      rw [List.take_succ_cons, runChecks_cons] at h
      obtain ⟨_, ih2⟩ := run_inside L per key (t0 + per) (rest.take m) _ 1 hL h2
        (fun t ht => hrest t (List.mem_of_mem_take ht))
      rw [ih2] at h
      have hp := Option.some.inj h
      have hc : min (1 + (rest.take m).length) L = c := congrArg Prod.snd hp
      have := Nat.min_le_right (1 + (rest.take m).length) L
      omega

theorem c1_hard_cap_witness :
    ((runChecks ((2 : ℕ) : ℤ) 60 "k" ((0 : ℚ) :: [1, 2]) emptyLimits).1.map
          isAdmitted
        = (List.range ((0 : ℚ) :: [1, 2]).length).map (fun i => decide (i < 2)))
      ∧ ∀ n e c,
          (runChecks ((2 : ℕ) : ℤ) 60 "k" (((0 : ℚ) :: [1, 2]).take n)
                emptyLimits).2 "k"
              = some (e, c) →
            c ≤ 2 :=
  c1_hard_cap 2 60 "k" 0 [1, 2] emptyLimits (by decide) (by decide) rfl
    (by decide) (by decide)

/-- C2: the counting window of a key resets exactly when the current time
has reached the stored expiry: a check at `now` at or past the expiry is
admitted and leaves the entry with count `1` and fresh expiry
`now + windowSeconds` (so after `limit` admissions starting at `t0`, a call
at any `t ≥ t0 + windowSeconds` is admitted with count `1`), while a check
strictly before the expiry keeps the stored expiry and merely increments
the count on admission. -/
theorem c2_window_reset (L : ℕ) (per : ℤ) (key : String) (st : RateLimits)
    (e now : ℚ) (c : ℕ) (hL : 1 ≤ L) (_hper : 0 < per)
    (hst : st key = some (e, c)) :
    (e ≤ now →
        isAdmitted (check_and_consume (L : ℤ) per key now st).1 = true
          ∧ (check_and_consume (L : ℤ) per key now st).2 key
            = some (now + (per : ℚ), 1))
      ∧ (now < e →
          (check_and_consume (L : ℤ) per key now st).2 key
            = some (e, if (L : ℤ) ≤ (c : ℤ) then c else c + 1)) := by
  constructor
  · intro he
    obtain ⟨h1, h2⟩ := step_absent (L : ℤ) per key now st
      (clear_of_expired hst he) (by exact_mod_cast hL)
    refine ⟨?_, h2⟩
    rw [h1]
    rfl
  · intro hlt
    obtain ⟨_, h2⟩ := step_live (L : ℤ) per key now st e c hst hlt
    rw [h2]
    by_cases hc : (L : ℤ) ≤ (c : ℤ)
    · rw [if_pos hc, if_pos hc]
    · rw [if_neg hc, if_neg hc]

theorem c2_window_reset_witness :
    ((5 : ℚ) ≤ 65 →
        isAdmitted (check_and_consume ((1 : ℕ) : ℤ) 60 "k" 65
              (fun k => if k = "k" then some ((5 : ℚ), 1) else none)).1 = true
          ∧ (check_and_consume ((1 : ℕ) : ℤ) 60 "k" 65
                (fun k => if k = "k" then some ((5 : ℚ), 1) else none)).2 "k"
            = some ((65 : ℚ) + ((60 : ℤ) : ℚ), 1))
      ∧ ((65 : ℚ) < 5 →
          (check_and_consume ((1 : ℕ) : ℤ) 60 "k" 65
                (fun k => if k = "k" then some ((5 : ℚ), 1) else none)).2 "k"
            = some ((5 : ℚ), if ((1 : ℕ) : ℤ) ≤ ((1 : ℕ) : ℤ) then 1 else 1 + 1)) :=
  c2_window_reset 1 60 "k" (fun k => if k = "k" then some ((5 : ℚ), 1) else none)
    5 65 1 (by decide) (by decide) (by decide)

theorem truncInt_of_nonneg {q : ℚ} (h : 0 ≤ q) : truncInt q = ⌊q⌋ := if_pos h

/-- C3 counterexample: with the `auth.login` configuration `(5, 60)`, six
checks of one key all at time `0` admit the first five with remaining
`4, 3, 2, 1, 0` and reject the sixth with `retry_after = 61`, whereas
`ceil(windowExpiresAt - now) = ceil(60 - 0) = 60`; so the rejected check's
hint is not `ceil(windowExpiresAt - now)` and exceeds the window length. -/
theorem c3_counterexample :
    (runChecks 5 60 "k" [0, 0, 0, 0, 0, 0] emptyLimits).1
        = [.admitted 4 60, .admitted 3 60, .admitted 2 60, .admitted 1 60,
           .admitted 0 60, .rejected 61]
      ∧ ⌈(60 : ℚ) - 0⌉ = 60 ∧ ¬ ((61 : ℤ) ≤ 60) := by
  refine ⟨by decide, by decide, by decide⟩

/-- C3 (amended): a rejected check returns
`retry_after = floor(windowExpiresAt - now) + 1`, which is at least
`ceil(windowExpiresAt - now)` and exceeds it exactly when the difference is
an integer; in the `auth.login (5, 60)` scenario the first five attempts
are admitted with remaining `4, 3, 2, 1, 0` and a sixth attempt within ten
seconds but strictly after the first is rejected with
`retry_after ≤ 60`. -/
theorem c3_retry_after (L per : ℤ) (key : String) (st : RateLimits)
    (e now : ℚ) (c : ℕ) (hst : st key = some (e, c)) (hnow : now < e)
    (hc : L ≤ (c : ℤ)) :
    ((check_and_consume L per key now st).1 = .rejected (⌊e - now⌋ + 1)
        ∧ ⌈e - now⌉ ≤ ⌊e - now⌋ + 1)
      ∧ ((runChecks 5 60 "scenario" [0, 0, 0, 0, 0] emptyLimits).1
          = [.admitted 4 60, .admitted 3 60, .admitted 2 60, .admitted 1 60,
             .admitted 0 60])
      ∧ ∀ t6 : ℚ, 0 < t6 → t6 ≤ 10 →
          (check_and_consume 5 60 "scenario" t6
              (runChecks 5 60 "scenario" [0, 0, 0, 0, 0] emptyLimits).2).1
              = .rejected (⌊(60 : ℚ) - t6⌋ + 1)
            ∧ ⌊(60 : ℚ) - t6⌋ + 1 ≤ 60 := by
  refine ⟨⟨?_, Int.ceil_le_floor_add_one _⟩, by decide, ?_⟩
  · obtain ⟨h1, _⟩ := step_live L per key now st e c hst hnow
    rw [if_pos hc] at h1
    rw [h1, truncInt_of_nonneg (by linarith)]
  · intro t6 ht0 ht10
    have hstate : (runChecks 5 60 "scenario" [0, 0, 0, 0, 0] emptyLimits).2
        "scenario" = some (60, 5) := by decide
    have hlt : t6 < (60 : ℚ) := lt_of_le_of_lt ht10 (by norm_num)
    obtain ⟨h1, _⟩ := step_live 5 60 "scenario" t6
      (runChecks 5 60 "scenario" [0, 0, 0, 0, 0] emptyLimits).2 60 5 hstate hlt
    rw [if_pos (by norm_num)] at h1
    have hfloor : ⌊(60 : ℚ) - t6⌋ < 60 := by
      rw [Int.floor_lt]
      push_cast
      linarith
    constructor
    · rw [h1, truncInt_of_nonneg (by linarith)]
    · omega

theorem c3_retry_after_witness :
    ((check_and_consume 5 60 "k" 1
            (fun k => if k = "k" then some ((60 : ℚ), 5) else none)).1
          = .rejected (⌊(60 : ℚ) - 1⌋ + 1)
        ∧ ⌈(60 : ℚ) - 1⌉ ≤ ⌊(60 : ℚ) - 1⌋ + 1)
      ∧ ((runChecks 5 60 "scenario" [0, 0, 0, 0, 0] emptyLimits).1
          = [.admitted 4 60, .admitted 3 60, .admitted 2 60, .admitted 1 60,
             .admitted 0 60])
      ∧ ∀ t6 : ℚ, 0 < t6 → t6 ≤ 10 →
          (check_and_consume 5 60 "scenario" t6
              (runChecks 5 60 "scenario" [0, 0, 0, 0, 0] emptyLimits).2).1
              = .rejected (⌊(60 : ℚ) - t6⌋ + 1)
            ∧ ⌊(60 : ℚ) - t6⌋ + 1 ≤ 60 :=
  c3_retry_after 5 60 "k" (fun k => if k = "k" then some ((60 : ℚ), 5) else none)
    60 1 5 (by decide) (by decide) (by decide)

/-- C4: a check that ends in rejection leaves the rejected key's entry
(count and expiry) exactly as it was before the check; for every other key
the only effect of a check is the sweep of already-expired entries, so the
only per-key mutation is the check-and-increment step taken on admission. -/
theorem c4_reject_preserves_entry (L per : ℤ) (key : String) (now : ℚ)
    (st : RateLimits) (hL : 1 ≤ L) :
    (isAdmitted (check_and_consume L per key now st).1 = false →
        (check_and_consume L per key now st).2 key = st key)
      ∧ ∀ k, k ≠ key →
          (check_and_consume L per key now st).2 k
            = clear_expired_limits now st k := by
  refine ⟨?_, fun k hk => check_snd_off_key L per key now st k hk⟩
  intro hrej
  rcases hsk : st key with _ | ⟨e, c⟩
  · obtain ⟨h1, _⟩ := step_absent L per key now st (clear_of_none hsk) hL
    rw [h1] at hrej
    exact absurd hrej (by simp [isAdmitted])
  · rcases le_or_lt e now with he | he
    · obtain ⟨h1, _⟩ := step_absent L per key now st (clear_of_expired hsk he) hL
      rw [h1] at hrej
      exact absurd hrej (by simp [isAdmitted])
    · obtain ⟨h1, h2⟩ := step_live L per key now st e c hsk he
      by_cases hc : L ≤ (c : ℤ)
      · rw [if_pos hc] at h2
        rw [h2]
      · rw [if_neg hc] at h1
        rw [h1] at hrej
        exact absurd hrej (by simp [isAdmitted])

theorem c4_reject_preserves_entry_witness :
    (isAdmitted (check_and_consume 1 60 "k" 0
            (fun k => if k = "k" then some ((60 : ℚ), 1) else none)).1 = false →
        (check_and_consume 1 60 "k" 0
              (fun k => if k = "k" then some ((60 : ℚ), 1) else none)).2 "k"
          = (fun k => if k = "k" then some ((60 : ℚ), 1) else none) "k")
      ∧ ∀ k, k ≠ "k" →
          (check_and_consume 1 60 "k" 0
                (fun k => if k = "k" then some ((60 : ℚ), 1) else none)).2 k
            = clear_expired_limits 0
                (fun k => if k = "k" then some ((60 : ℚ), 1) else none) k :=
  c4_reject_preserves_entry 1 60 "k" 0
    (fun k => if k = "k" then some ((60 : ℚ), 1) else none) (by decide)

/-- C7 counterexample: a call with the non-positive limit `0` does not fail
fast with a precondition violation — it produces the runtime Rejected
result `retry_after = 61` (the code performs no argument validation). -/
theorem c7_counterexample :
    (check_and_consume 0 60 "k" 0 emptyLimits).1 = .rejected 61
      ∧ isAdmitted (check_and_consume 0 60 "k" 0 emptyLimits).1 = false := by
  refine ⟨by decide, by decide⟩

/-- C7 (amended): `checkAndConsume` performs no validation of its
arguments and never fails fast: every call with a non-positive limit
produces a runtime Rejected result (for any state), and a call with a
non-positive window still produces a runtime result — a fresh key is
Admitted whenever the limit is at least one. -/
theorem c7_no_validation (L per : ℤ) (key : String) (now : ℚ)
    (st : RateLimits) :
    (L ≤ 0 → isAdmitted (check_and_consume L per key now st).1 = false)
      ∧ (per ≤ 0 → 1 ≤ L → st key = none →
          isAdmitted (check_and_consume L per key now st).1 = true) := by
  constructor
  · intro hL
    rw [check_fst]
    rcases clear_expired_limits now st key with _ | ⟨e, c⟩
    · unfold check_core
      simp only [Option.getD, ite_self]
      rw [if_pos (by push_cast; omega)]
      rfl
    · unfold check_core
      simp only [Option.getD]
      by_cases hlt : e < now
      · rw [if_pos hlt, if_pos (by push_cast; omega)]
        rfl
      · rw [if_neg hlt, if_pos (le_trans hL (Int.natCast_nonneg c))]
        rfl
  · intro _ hL hstk
    obtain ⟨h1, _⟩ := step_absent L per key now st (clear_of_none hstk) hL
    rw [h1]
    rfl

theorem c7_no_validation_witness :
    isAdmitted (check_and_consume 0 60 "k" 0 emptyLimits).1 = false
      ∧ isAdmitted (check_and_consume 1 (-5) "k" 0 emptyLimits).1 = true :=
  ⟨(c7_no_validation 0 60 "k" 0 emptyLimits).1 (by decide),
   (c7_no_validation 1 (-5) "k" 0 emptyLimits).2 (by decide) (by decide) rfl⟩

/-- C8: two rejections of one key inside the same window carry
monotonically non-increasing retry-after hints: the earlier rejection's
hint is at least the later one's. -/
theorem c8_retry_monotone (L per : ℤ) (key : String) (st : RateLimits)
    (e t1 t2 : ℚ) (c : ℕ) (hst : st key = some (e, c)) (hc : L ≤ (c : ℤ))
    (h12 : t1 < t2) (h2e : t2 < e) :
    (check_and_consume L per key t1 st).1 = .rejected (⌊e - t1⌋ + 1)
      ∧ (check_and_consume L per key t2
            (check_and_consume L per key t1 st).2).1
        = .rejected (⌊e - t2⌋ + 1)
      ∧ ⌊e - t2⌋ + 1 ≤ ⌊e - t1⌋ + 1 := by
  have h1e : t1 < e := lt_trans h12 h2e
  obtain ⟨h1, hs1⟩ := step_live L per key t1 st e c hst h1e
  rw [if_pos hc] at h1 hs1
  obtain ⟨h2, _⟩ := step_live L per key t2 (check_and_consume L per key t1 st).2
    e c hs1 h2e
  rw [if_pos hc] at h2
  refine ⟨?_, ?_, ?_⟩
  · rw [h1, truncInt_of_nonneg (by linarith)]
  · rw [h2, truncInt_of_nonneg (by linarith)]
  · have := Int.floor_le_floor (sub_le_sub_left h12.le e)
    omega

theorem c8_retry_monotone_witness :
    (check_and_consume 5 60 "k" 1
          (fun k => if k = "k" then some ((60 : ℚ), 5) else none)).1
        = .rejected (⌊(60 : ℚ) - 1⌋ + 1)
      ∧ (check_and_consume 5 60 "k" 2
            (check_and_consume 5 60 "k" 1
              (fun k => if k = "k" then some ((60 : ℚ), 5) else none)).2).1
        = .rejected (⌊(60 : ℚ) - 2⌋ + 1)
      ∧ ⌊(60 : ℚ) - 2⌋ + 1 ≤ ⌊(60 : ℚ) - 1⌋ + 1 :=
  c8_retry_monotone 5 60 "k"
    (fun k => if k = "k" then some ((60 : ℚ), 5) else none) 60 1 2 5
    (by decide) (by decide) (by decide) (by decide)

theorem clear_congr_at (now : ℚ) (st st' : RateLimits) (k : String)
    (h : st k = st' k) :
    clear_expired_limits now st k = clear_expired_limits now st' k := by
  rw [clear_at, clear_at, h]

theorem check_fst_congr (L per : ℤ) (key : String) (now : ℚ)
    (st st' : RateLimits)
    (h : clear_expired_limits now st key = clear_expired_limits now st' key) :
    (check_and_consume L per key now st).1
      = (check_and_consume L per key now st').1 := by
  rw [check_fst, check_fst, h]

theorem run_other_key (L per : ℤ) (A B : String) (hAB : B ≠ A) (ts : List ℚ)
    (st : RateLimits) :
    ((runChecks L per A ts st).2 B = st B)
      ∨ ((runChecks L per A ts st).2 B = none
          ∧ ∃ ta ∈ ts, ∃ e c, st B = some (e, c) ∧ e ≤ ta) := by
  induction ts generalizing st with
  | nil => exact Or.inl rfl
  | cons t ts' ih =>
    have hstep : (check_and_consume L per A t st).2 B
        = clear_expired_limits t st B := check_snd_off_key L per A t st B hAB
    rcases hsb : st B with _ | ⟨e, c⟩
    · have h1 : (check_and_consume L per A t st).2 B = none := by
        rw [hstep, clear_of_none hsb]
      rcases ih (check_and_consume L per A t st).2 with h | ⟨_, _, _, _, _, hsome, _⟩
      · left
        rw [runChecks_cons]
        rw [h, h1]
      · rw [h1] at hsome
        exact absurd hsome (by simp)
    · rcases le_or_lt e t with he | he
      · have h1 : (check_and_consume L per A t st).2 B = none := by
          rw [hstep, clear_of_expired hsb he]
        rcases ih (check_and_consume L per A t st).2 with h | ⟨_, _, _, _, _, hsome, _⟩
        · right
          refine ⟨?_, t, List.mem_cons_self t ts', e, c, rfl, he⟩
          rw [runChecks_cons]
          rw [h, h1]
        · rw [h1] at hsome
          exact absurd hsome (by simp)
      · have h1 : (check_and_consume L per A t st).2 B = some (e, c) := by
          rw [hstep, clear_of_live hsb he]
        rcases ih (check_and_consume L per A t st).2 with h |
          ⟨hnone, ta, hta, e', c', hsome, hle⟩
        · left
          rw [runChecks_cons]
          rw [h, h1]
        · right
          refine ⟨by rw [runChecks_cons]; exact hnone, ?_⟩
          have hec : (e, c) = (e', c') := Option.some.inj (h1.symm.trans hsome)
          have hee : e = e' := congrArg Prod.fst hec
          exact ⟨ta, List.mem_cons_of_mem _ hta, e, c, rfl, by rw [hee]; exact hle⟩

/-- C9: checks on one key never change the outcome another key observes —
after any sequence of checks on key `A` at times up to `t`, a check of a
different key `B` at time `t` yields exactly the result it would have
yielded on the original state, so per-key budgets are consumed
independently. -/
theorem c9_key_independence (LA perA LB perB : ℤ) (A B : String)
    (hAB : B ≠ A) (tsA : List ℚ) (t : ℚ) (hts : ∀ ta ∈ tsA, ta ≤ t)
    (st : RateLimits) :
    (check_and_consume LB perB B t ((runChecks LA perA A tsA st).2)).1
      = (check_and_consume LB perB B t st).1 := by
  apply check_fst_congr
  rcases run_other_key LA perA A B hAB tsA st with h |
    ⟨hnone, ta, hta, e, c, hsome, hle⟩
  · exact clear_congr_at t _ _ B h
  · rw [clear_of_none hnone, clear_of_expired hsome (le_trans hle (hts ta hta))]

theorem c9_key_independence_witness :
    (check_and_consume 1000 3600 "user:api" 1
          ((runChecks 30 60 "user:search" [0] emptyLimits).2)).1
      = (check_and_consume 1000 3600 "user:api" 1 emptyLimits).1 :=
  c9_key_independence 30 60 1000 3600 "user:search" "user:api" (by decide)
    [0] 1 (by decide) emptyLimits

/-- C10: with the TESTING configuration flag set, a rate-limited call
returns the wrapped handler's result unchanged (no rate-limit headers are
attached), leaves the shared key-to-entry map exactly as it was, and its
result does not depend on that map at all. -/
theorem c10_testing_bypass {ρ : Type} (L per : ℤ) (key : String) (now : ℚ)
    (handler : ρ) (st : RateLimits) :
    decorated_function true L per key now handler st = (.plain handler, st)
      ∧ ∀ st' : RateLimits,
          (decorated_function true L per key now handler st).1
            = (decorated_function true L per key now handler st').1 :=
  ⟨rfl, fun _ => rfl⟩

end RateLimiter

namespace RateLimitsConfig

/-- A value of the nested `RATE_LIMITS` table of `config/rate_limits.py`:
either a direct `(limit, seconds)` pair or a nested subcategory table. -/
inductive LimitValue where
  | flat (v : ℤ × ℤ)
  | nested (table : List (String × (ℤ × ℤ)))
deriving DecidableEq

/-- The `RATE_LIMITS` table of `config/rate_limits.py`. -/
def RATE_LIMITS : List (String × LimitValue) :=
  [("public", .flat (100, 60)),
   ("auth", .nested
     [("login", (5, 60)), ("register", (3, 60)), ("password_reset", (3, 60))]),
   ("api", .nested
     [("default", (1000, 3600)), ("public", (100, 60)),
      ("authenticated", (500, 300))]),
   ("sensitive", .flat (10, 60)),
   ("uploads", .flat (20, 300)),
   ("admin", .flat (200, 60)),
   ("search", .flat (30, 60))]

/-- The nested-table branch of the two-argument `get_rate_limit` of
`config/rate_limits.py`: look the subcategory up (the Python
`subcategory not in limits` test is false for `None`), falling back to the
default entry and raising `KeyError` if that is also missing. -/
def lookup_nested (category : String) (table : List (String × (ℤ × ℤ)))
    (subcategory : Option String) : Except String (ℤ × ℤ) :=
  match subcategory.bind (fun sub => table.lookup sub) with
  | some v => .ok v
  | none =>
    match table.lookup "default" with
    | some v => .ok v
    | none =>
      .error ("Unknown rate limit subcategory for category " ++ category)

/-- Embeds the two-argument `get_rate_limit` of `config/rate_limits.py`:
raise `KeyError` for an unknown category; inside a nested category, fall
back to the default entry for an unknown (or omitted) subcategory and
raise `KeyError` if there is none. -/
def get_rate_limit (category : String) (subcategory : Option String) :
    Except String (ℤ × ℤ) :=
  match RATE_LIMITS.lookup category with
  | none => .error ("Unknown rate limit category: " ++ category)
  | some (.flat v) => .ok v
  | some (.nested table) => lookup_nested category table subcategory

/-- The `endpoint_map` built inside `get_rate_limit_for_endpoint`, with the
`get_rate_limit` calls of the source evaluated; endpoint-name prefixes are
modelled as character lists. -/
def endpoint_map : List (List Char × (ℤ × ℤ)) :=
  [("auth.login".data, (5, 60)),
   ("auth.register".data, (3, 60)),
   ("auth.forgot_password".data, (3, 60)),
   ("auth.reset_password".data, (3, 60)),
   ("api.v1.".data, (1000, 3600)),
   ("api.public.".data, (100, 60)),
   ("admin.".data, (200, 60)),
   ("upload.".data, (20, 300)),
   ("search.".data, (30, 60))]

/-- The `default_limit` of `get_rate_limit_for_endpoint`. -/
def default_limit : ℤ × ℤ := (100, 60)

/-- Embeds `get_rate_limit_for_endpoint`: return the value of the first
table prefix the endpoint starts with (Python dict iteration is in
insertion order), or the default when none matches. -/
def get_rate_limit_for_endpoint (endpoint : List Char) : ℤ × ℤ :=
  match endpoint_map.find? (fun pr => pr.1.isPrefixOf endpoint) with
  | some pr => pr.2
  | none => default_limit

/-- The entries of `endpoint_map` are exactly the values the source obtains
from the configuration table via `get_rate_limit`. -/
theorem endpoint_map_matches_config :
    get_rate_limit "auth" (some "login") = .ok (5, 60)
      ∧ get_rate_limit "auth" (some "register") = .ok (3, 60)
      ∧ get_rate_limit "auth" (some "password_reset") = .ok (3, 60)
      ∧ get_rate_limit "api" (some "default") = .ok (1000, 3600)
      ∧ get_rate_limit "api" (some "public") = .ok (100, 60)
      ∧ get_rate_limit "admin" none = .ok (200, 60)
      ∧ get_rate_limit "uploads" none = .ok (20, 300)
      ∧ get_rate_limit "search" none = .ok (30, 60) :=
  ⟨rfl, rfl, rfl, rfl, rfl, rfl, rfl, rfl⟩

theorem isPrefixOf_comparable : ∀ (p q s : List Char),
    p.isPrefixOf s = true → q.isPrefixOf s = true →
      p.isPrefixOf q = true ∨ q.isPrefixOf p = true
  | [], _, _, _, _ => Or.inl List.isPrefixOf_nil_left
  | _ :: _, [], _, _, _ => Or.inr List.isPrefixOf_nil_left
  | a :: p, b :: q, s, hp, hq => by
    cases s with
    | nil => simp [List.isPrefixOf] at hp
    | cons x s =>
      simp only [List.isPrefixOf, Bool.and_eq_true, beq_iff_eq] at hp hq
      obtain ⟨ha, hp'⟩ := hp
      obtain ⟨hb, hq'⟩ := hq
      subst ha
      subst hb
      rcases isPrefixOf_comparable p q s hp' hq' with h | h
      · left
        simp [List.isPrefixOf, h]
      · right
        simp [List.isPrefixOf, h]

theorem endpoint_map_no_nested_prefixes :
    ∀ x ∈ endpoint_map, ∀ y ∈ endpoint_map,
      x.1.isPrefixOf y.1 = true → x.1 = y.1 := by decide

theorem endpoint_map_functional :
    ∀ x ∈ endpoint_map, ∀ y ∈ endpoint_map, x.1 = y.1 → x.2 = y.2 := by decide

/-- C6: endpoint-to-category resolution is a longest-prefix match over the
static prefix table: whenever a table entry's prefix matches the endpoint
and is of maximal length among matching entries, that entry's
`(limit, windowSeconds)` is returned, and an endpoint matching no table
prefix gets the global default `(100, 60)`. -/
theorem c6_endpoint_resolution (endpoint : List Char) :
    (∀ pr ∈ endpoint_map, pr.1.isPrefixOf endpoint = true →
        (∀ qr ∈ endpoint_map, qr.1.isPrefixOf endpoint = true →
            qr.1.length ≤ pr.1.length) →
          get_rate_limit_for_endpoint endpoint = pr.2)
      ∧ ((∀ pr ∈ endpoint_map, pr.1.isPrefixOf endpoint = false) →
          get_rate_limit_for_endpoint endpoint = default_limit) := by
  constructor
  · intro pr hmem hpre _hlong
    unfold get_rate_limit_for_endpoint
    cases hfind : endpoint_map.find? (fun x => x.1.isPrefixOf endpoint) with
    | none =>
      exact absurd hpre (by simpa using List.find?_eq_none.mp hfind pr hmem)
    | some qr =>
      have hq : qr.1.isPrefixOf endpoint = true := by
        simpa using List.find?_some hfind
      have hqmem := List.mem_of_find?_eq_some hfind
      show qr.2 = pr.2
      rcases isPrefixOf_comparable pr.1 qr.1 endpoint hpre hq with h | h
      · exact (endpoint_map_functional pr hmem qr hqmem
          (endpoint_map_no_nested_prefixes pr hmem qr hqmem h)).symm
      · exact endpoint_map_functional qr hqmem pr hmem
          (endpoint_map_no_nested_prefixes qr hqmem pr hmem h)
  · intro hnone
    unfold get_rate_limit_for_endpoint
    rw [List.find?_eq_none.mpr (fun x hx => by simp [hnone x hx])]

theorem c6_endpoint_resolution_witness :
    get_rate_limit_for_endpoint "auth.login2".data = (5, 60)
      ∧ get_rate_limit_for_endpoint "products.list".data = default_limit :=
  ⟨(c6_endpoint_resolution "auth.login2".data).1 ("auth.login".data, (5, 60))
      (by decide) (by decide) (by decide),
   (c6_endpoint_resolution "products.list".data).2 (by decide)⟩

end RateLimitsConfig

namespace RateLimitsConfig

/-- C5 counterexample: the one-argument `get_rate_limit` of
`app/utils/rate_limiter.py` — one of the two resolvers the repository
defines under that name — silently returns the default `(100, 60)` for the
category "nonexistent", which is absent from its configuration table, and
has no error outcome at all. -/
theorem c5_counterexample :
    RateLimiter.get_rate_limit "nonexistent" = (100, 60)
      ∧ RateLimiter.RATE_LIMITS.lookup "nonexistent" = none :=
  ⟨by decide, by decide⟩

/-- C5 (amended): the two-argument `get_rate_limit` of
`config/rate_limits.py` fails with an error for every category absent from
its table and, inside a nested category, falls back to the default entry
for an unknown subcategory, failing with an error when there is none;
the one-argument `get_rate_limit` of `app/utils/rate_limiter.py`, however,
silently returns `(100, 60)` for a category absent from its table. -/
theorem c5_resolve_limit (cat sub : String) :
    (RATE_LIMITS.lookup cat = none →
        ∃ msg, get_rate_limit cat (some sub) = .error msg)
      ∧ (∀ table, RATE_LIMITS.lookup cat = some (.nested table) →
          table.lookup sub = none →
            (∀ v, table.lookup "default" = some v →
                get_rate_limit cat (some sub) = .ok v)
              ∧ (table.lookup "default" = none →
                  ∃ msg, get_rate_limit cat (some sub) = .error msg))
      ∧ (RateLimiter.RATE_LIMITS.lookup cat = none →
          RateLimiter.get_rate_limit cat = (100, 60)) := by
  have hbind : ∀ (table : List (String × (ℤ × ℤ))),
      (some sub).bind (fun s => table.lookup s) = table.lookup sub :=
    fun _ => rfl
  refine ⟨?_, ?_, ?_⟩
  · intro h
    unfold get_rate_limit
    rw [h]
    exact ⟨_, rfl⟩
  · intro table hcat hsub
    constructor
    · intro v hdef
      show get_rate_limit cat (some sub) = Except.ok v
      unfold get_rate_limit
      rw [hcat]
      show lookup_nested cat table (some sub) = Except.ok v
      unfold lookup_nested
      rw [hbind, hsub, hdef]
    · intro hdef
      show ∃ msg, get_rate_limit cat (some sub) = Except.error msg
      unfold get_rate_limit
      rw [hcat]
      refine ⟨"Unknown rate limit subcategory for category " ++ cat, ?_⟩
      show lookup_nested cat table (some sub) = _
      unfold lookup_nested
      rw [hbind, hsub, hdef]
  · intro h
    unfold RateLimiter.get_rate_limit
    rw [h]
    rfl

theorem c5_resolve_limit_witness :
    (∃ msg, get_rate_limit "nonexistent" (some "x") = .error msg)
      ∧ get_rate_limit "api" (some "weird") = .ok (1000, 3600)
      ∧ (∃ msg, get_rate_limit "auth" (some "unknown_sub") = .error msg)
      ∧ RateLimiter.get_rate_limit "nonexistent" = (100, 60) :=
  ⟨(c5_resolve_limit "nonexistent" "x").1 (by decide),
   ((c5_resolve_limit "api" "weird").2.1
       [("default", (1000, 3600)), ("public", (100, 60)),
        ("authenticated", (500, 300))]
       (by decide) (by decide)).1 (1000, 3600) (by decide),
   ((c5_resolve_limit "auth" "unknown_sub").2.1
       [("login", (5, 60)), ("register", (3, 60)), ("password_reset", (3, 60))]
       (by decide) (by decide)).2 (by decide),
   (c5_resolve_limit "nonexistent" "x").2.2 (by decide)⟩

end RateLimitsConfig
